import Mathlib

/-!
Shallow embedding of the invoker-agent log-forwarding pipeline
(`logging.go` of the invoker-agent: `logScan`, `logWriter`,
`writeSyntheticLogLine`, `parseLogForwardInfo`, `ForwardLogsFromUserAction`).

Strings and files are modelled as `List Char` (one `Char` per byte; all
concrete inputs are ASCII, where Go's `len` on a string equals the number
of characters).  The channel `logSinkChannel` is modelled by the ordered
list of lines pushed to it.
-/

namespace InvokerAgent

/-- LogForwardInfo: JSON structure expected as request body on the /logs route
(fields `lastOffset`, `sizeLimit`, `sentinelledLogs`, `encodedLogLineMetadata`,
`encodedActivation`).  Go types: int64, int, bool, string, string. -/
structure LogForwardInfo where
  lastOffset : Int
  sizeLimit : Int
  sentinelledLogs : Bool
  encodedLogLineMetadata : List Char
  encodedActivation : List Char
deriving DecidableEq, Repr

/-- The sentinel marker constant `logSentinelLine`. -/
def logSentinelLine : List Char :=
  ("XXX_THE_END_OF_A_WHISK_ACTIVATION_XXX").data

/-- The templated truncation message `truncatedLogMessage`, with `%d`
instantiated at the size limit (Go `fmt.Sprintf` with the `int` limit). -/
def truncatedLogMessage (limit : Int) : List Char :=
  ("Logs were truncated because the total bytes size exceeds the limit of ").data
    ++ (toString limit).data ++ (" bytes.").data

/-- The constant `genericLogErrorMessage`. -/
def genericLogErrorMessage : List Char :=
  ("There was an issue while collecting your logs. Data might be missing.").data

/-- `writeSyntheticLogLine` builds the line
`\x7b"log":"<msg>", "stream":"stderr", "time":"<now>",<metadata>\x7d`
and pushes it to the sink channel; here we return the line, and the
callers place it in their pushed-lines list.  `now` stands for the
RFC3339-formatted current time, passed in as a parameter. -/
def writeSyntheticLogLine (msg now metadata : List Char) : List Char :=
  ("\x7b\"log\":\"").data ++ msg ++ ("\", \"stream\":\"stderr\", \"time\":\"").data
    ++ now ++ ("\",").data ++ metadata ++ ['\x7d']

/-- Drop a final carriage return, as `bufio.ScanLines`' `dropCR` does. -/
def dropCR (l : List Char) : List Char :=
  if l.getLast? = some '\x0d' then l.dropLast else l

/-- Helper for `splitLines`; `acc` holds the current (reversed) partial line. -/
def splitLinesAux (acc : List Char) : List Char → List (List Char)
  | [] => if acc.isEmpty then [] else [dropCR acc.reverse]
  | c :: rest =>
    if c = '\x0a' then dropCR acc.reverse :: splitLinesAux [] rest
    else splitLinesAux (c :: acc) rest

/-- The token sequence produced by `bufio.Scanner` with the default
`ScanLines` split function: lines separated by newline, each with any
final carriage return dropped; a final line without a terminating
newline is still produced; no empty token is produced at end-of-data. -/
def splitLines (cs : List Char) : List (List Char) := splitLinesAux [] cs

/-- Go's `strings.Contains(hay, needle)`: `needle` occurs as a contiguous
substring of `hay` (an empty `needle` is contained everywhere). -/
def stringsContains : List Char → List Char → Bool
  | [], needle => needle.isEmpty
  | c :: rest, needle => needle.isPrefixOf (c :: rest) || stringsContains rest needle

/-- The munged content line
`fmt.Sprintf("%s,%s\x7d", logLine[:logLineLen-1], lfi.EncodedLogLineMetadata)`:
the line with its last character removed, then a comma, the metadata, and
a closing brace. -/
def munge (metadata tok : List Char) : List Char :=
  tok.dropLast ++ ',' :: metadata ++ ['\x7d']

/-- The classification applied to each scanned line by `logScan`:
`lfi.SentinelledLogs && strings.Contains(logLine, logSentinelLine)`. -/
def isSentTok (sentinelled : Bool) (tok : List Char) : Bool :=
  sentinelled && stringsContains tok logSentinelLine

/-- Result of the scanning loop of `logScan` (lines 139-154): the final
value of `sentinelsLeft`, the lines pushed to the sink channel, and whether
the truncation branch ran (it performs `Seek(0, 2)` to end-of-file); or a
runtime panic (the Go slice expression `logLine[:logLineLen-1]` panics
when the line is empty, since the upper bound is -1). -/
inductive LoopResult where
  | ok (sentinelsLeft : Nat) (emitted : List (List Char)) (truncated : Bool)
  | panicked (emitted : List (List Char))
deriving DecidableEq, Repr

/-- Prepend an already-pushed line to a loop result's emitted lines. -/
def LoopResult.consEmit (line : List Char) : LoopResult → LoopResult
  | .ok sl e tr => .ok sl (line :: e) tr
  | .panicked e => .panicked (line :: e)

/-- The emitted lines of a loop result. -/
def LoopResult.emitted : LoopResult → List (List Char)
  | .ok _ e _ => e
  | .panicked e => e

/-- The scanning loop of `logScan`:
`for sentinelsLeft > 0 && scanner.Scan()` over the token list.  A line
containing the sentinel marker (checked with `strings.Contains`) in
sentinel mode decrements `sentinelsLeft` and is not forwarded; any other
line is munged and pushed, its raw length added to `bytesWritten`; if the
counter then exceeds the size limit, one synthetic truncation line
(prebuilt as `truncLine`) is pushed, the file is sought to end-of-file,
and the loop is forced to exit by setting `sentinelsLeft` to zero.
An empty content line panics in the munging slice before being pushed. -/
def scanLoop (sentinelled : Bool) (limit : Int) (metadata truncLine : List Char) :
    List (List Char) → Nat → Int → LoopResult
  | _, 0, _ => .ok 0 [] false
  | [], sl + 1, _ => .ok (sl + 1) [] false
  | tok :: rest, sl + 1, bw =>
    if isSentTok sentinelled tok then
      scanLoop sentinelled limit metadata truncLine rest sl bw
    else if tok.isEmpty then
      .panicked []
    else
      let bw2 := bw + tok.length
      if bw2 > limit then
        .ok 0 [munge metadata tok, truncLine] true
      else
        (scanLoop sentinelled limit metadata truncLine rest (sl + 1) bw2).consEmit
          (munge metadata tok)

/-- Error classification of `logScan`'s three `errors.New` sites. -/
inductive ScanError where
  | openFailed
  | seekFailed
  | sentinelsNotFound
deriving DecidableEq, Repr

/-- Outcome of one `logScan` call: the ordered lines it pushed to the sink
channel, and either the returned log-file offset, an error (no offset), or
a panic. -/
inductive ScanResult where
  | ok (emitted : List (List Char)) (offset : Int)
  | error (emitted : List (List Char)) (e : ScanError)
  | panicked (emitted : List (List Char))
deriving DecidableEq, Repr

/-- `logScan(container, lfi)`.  The container's log file is modelled as
`Option (List Char)`: `none` when `os.Open` fails.  `os.File.Seek` on a
regular file with whence 0 succeeds at any non-negative offset (even past
end-of-file) and returns that offset, and fails on a negative offset, so
the check `offset != lfi.LastOffset || err != nil` fires exactly when
`lastOffset < 0`.

The `bufio.Scanner` reads ahead from the file descriptor in buffered
chunks (its first read requests 4096 bytes, the initial buffer size;
later reads occur only when no complete token remains buffered), so when
the loop stops, the descriptor's position is `lastOffset` plus the total
bytes those reads consumed — at least the bytes of the delivered tokens,
at most the readable region's length.  `readAhead` is this read-ahead
total, an input to the model: the definition clamps it at the region
length (a read never passes end-of-file), and each theorem or concrete
run instantiates it to the value the chunked reading produces there
(4096 for a loop that stops within the first read).  The truncation
branch instead seeks to end-of-file explicitly, so on that path the final
`Seek(0, 1)` returns the file length regardless of `readAhead`.
On success the activation record is pushed after the loop's lines. -/
def logScan (readAhead : Nat) (file : Option (List Char)) (now : List Char)
    (lfi : LogForwardInfo) : ScanResult :=
  match file with
  | none => .error [] .openFailed
  | some f =>
    if lfi.lastOffset < 0 then .error [] .seekFailed
    else
      let tokens := splitLines (f.drop lfi.lastOffset.toNat)
      let truncLine :=
        writeSyntheticLogLine (truncatedLogMessage lfi.sizeLimit) now
          lfi.encodedLogLineMetadata
      match scanLoop lfi.sentinelledLogs lfi.sizeLimit lfi.encodedLogLineMetadata
          truncLine tokens 2 0 with
      | .panicked e => .panicked e
      | .ok sl e truncated =>
        if lfi.sentinelledLogs = true ∧ sl ≠ 0 then .error e .sentinelsNotFound
        else .ok (e ++ [lfi.encodedActivation])
          (if truncated then (f.length : Int)
           else lfi.lastOffset
             + (min readAhead (f.drop lfi.lastOffset.toNat).length : Nat))

/-- The sink-channel lines pushed by `reportLoggingError`: one generic
synthetic error line when the metadata is non-empty, none otherwise. -/
def reportLoggingErrorPushes (now metadata : List Char) : List (List Char) :=
  if metadata.isEmpty then [] else [writeSyntheticLogLine genericLogErrorMessage now metadata]

/-- Observable outcome of the HTTP handler `ForwardLogsFromUserAction`:
the response status code written, the lines pushed to the sink channel
(in order), the offset printed in the response body on success, whether
`logScan` was invoked, and whether the handler panicked. -/
structure HandlerOutput where
  status : Nat
  sinkPushes : List (List Char)
  responseOffset : Option Int
  scanInvoked : Bool
  panicked : Bool
deriving DecidableEq, Repr

/-- The part of `ForwardLogsFromUserAction` after a successful body parse
(lines 86-101): run `logScan`; on error, report status 500 (pushing the
generic synthetic line when metadata is non-empty) and then push the
activation record; on success, report 200 with the returned offset. -/
def handleScanRequest (readAhead : Nat) (file : Option (List Char)) (now : List Char)
    (lfi : LogForwardInfo) : HandlerOutput :=
  match logScan readAhead file now lfi with
  | .error e _ =>
    { status := 500
      sinkPushes := e ++ reportLoggingErrorPushes now lfi.encodedLogLineMetadata
        ++ [lfi.encodedActivation]
      responseOffset := none
      scanInvoked := true
      panicked := false }
  | .ok e off =>
    { status := 200, sinkPushes := e, responseOffset := some off
      scanInvoked := true, panicked := false }
  | .panicked e =>
    { status := 0, sinkPushes := e, responseOffset := none
      scanInvoked := true, panicked := true }

/-- `encoding/json.Unmarshal(b, v)` checks its target first: if `v` is nil
(or not a pointer) it returns an `InvalidUnmarshalError` before looking at
the data.  The target pointer is modelled as `Option LogForwardInfo`
(`none` for a nil pointer) and the actual JSON decoding — only reachable
through a non-nil pointer — is an arbitrary parameter `decode`. -/
def jsonUnmarshal (decode : List Char → Except Unit LogForwardInfo)
    (b : List Char) (v : Option LogForwardInfo) : Except Unit LogForwardInfo :=
  match v with
  | none => .error ()
  | some _ => decode b

/-- `parseLogForwardInfo` (lines 104-118): declares `var lfi *LogForwardInfo`
(a nil pointer) and calls `json.Unmarshal(b, lfi)` on the request body. -/
def parseLogForwardInfo (decode : List Char → Except Unit LogForwardInfo)
    (body : List Char) : Except Unit LogForwardInfo :=
  let lfi : Option LogForwardInfo := none
  jsonUnmarshal decode body lfi

/-- The HTTP handler `ForwardLogsFromUserAction` for the /logs/\x7bcontainer\x7d
route: parse the body; on a parse error report status 400 with empty
metadata (so no synthetic line) and return without scanning; otherwise run
the scan part. -/
def forwardLogsFromUserAction (decode : List Char → Except Unit LogForwardInfo)
    (readAhead : Nat) (file : Option (List Char)) (now body : List Char) :
    HandlerOutput :=
  match parseLogForwardInfo decode body with
  | .error _ =>
    { status := 400, sinkPushes := [], responseOffset := none
      scanInvoked := false, panicked := false }
  | .ok lfi => handleScanRequest readAhead file now lfi

/-! ### Sink writer (`logWriter`, lines 175-207)

State of the goroutine: the open sink file (`nil` or a handle with the
running byte counter `sinkFileBytes`) and a source of fresh file names.
File names come from `time.Now().UnixNano() / 1000000`; successive
creations are modelled as drawing strictly increasing identifiers
(millisecond timestamps assumed strictly increasing across rotations). -/

/-- Sink-writer state: `sinkFile` is `none` when no file is open, otherwise
the open file's identifier and the counter `sinkFileBytes`; `nextId` is
the next fresh file identifier. -/
structure SinkState where
  sinkFile : Option (Nat × Int)
  nextId : Nat
deriving DecidableEq, Repr

/-- Identifiers of files opened so far stay below `nextId`. -/
def SinkInv (st : SinkState) : Prop :=
  ∀ f b, st.sinkFile = some (f, b) → f < st.nextId

/-- One iteration of the `logWriter` loop on one line from the channel:
if no sink file is open, create a fresh one and reset the counter to 0;
write the line plus a newline (`fmt.Fprintln`, so `len(line) + 1` bytes),
add the bytes written to the counter; if the counter now exceeds
`LogSinkSize`, close the file and clear the handle.  Returns the new
state and the write event (file written to, line). -/
def logWriterStep (logSinkSize : Int) (st : SinkState) (line : List Char) :
    SinkState × Nat × List Char :=
  let fid : Nat := match st.sinkFile with | none => st.nextId | some (f, _) => f
  let bytes : Int := match st.sinkFile with | none => 0 | some (_, b) => b
  let nid : Nat := match st.sinkFile with | none => st.nextId + 1 | some _ => st.nextId
  let bytesWritten : Int := (line.length : Int) + 1
  let bytes2 := bytes + bytesWritten
  let sink2 := if bytes2 > logSinkSize then none else some (fid, bytes2)
  (⟨sink2, nid⟩, fid, line)

/-- Run the sink writer over a list of incoming lines, collecting the
write events in order. -/
def logWriterRun (logSinkSize : Int) (st : SinkState) :
    List (List Char) → SinkState × List (Nat × List Char)
  | [] => (st, [])
  | line :: rest =>
    let step := logWriterStep logSinkSize st line
    let tail := logWriterRun logSinkSize step.1 rest
    (tail.1, step.2 :: tail.2)

/-! ### Derived views of a token list, used to state properties of the loop -/

/-- The content lines of a token list: those not classified as sentinel. -/
def contentToks (sentinelled : Bool) (ts : List (List Char)) : List (List Char) :=
  ts.filter (fun t => !isSentTok sentinelled t)

/-- The number of sentinel-classified lines of a token list. -/
def countSent (sentinelled : Bool) (ts : List (List Char)) : Nat :=
  (ts.filter (isSentTok sentinelled)).length

/-- Total raw byte length of the content lines of a token list. -/
def contentBytes (sentinelled : Bool) (ts : List (List Char)) : Nat :=
  ((contentToks sentinelled ts).map List.length).sum

/-- A token list is scanned without incident starting from byte counter
`bw`: every content line is non-empty (no munging panic) and the running
byte counter never exceeds the size limit (no truncation). -/
def scanSafe (sentinelled : Bool) (limit : Int) : Int → List (List Char) → Bool
  | _, [] => true
  | bw, t :: rest =>
    if isSentTok sentinelled t then scanSafe sentinelled limit bw rest
    else !t.isEmpty && decide (bw + (t.length : Int) ≤ limit)
      && scanSafe sentinelled limit (bw + t.length) rest

/-! ### Loop lemmas -/

lemma scanLoop_zero (s : Bool) (limit : Int) (m tr : List Char)
    (ts : List (List Char)) (bw : Int) :
    scanLoop s limit m tr ts 0 bw = .ok 0 [] false := by
  cases ts <;> rfl

lemma scanLoop_nil (s : Bool) (limit : Int) (m tr : List Char) (sl : Nat) (bw : Int) :
    scanLoop s limit m tr [] sl bw = .ok sl [] false := by
  cases sl <;> rfl

lemma isSentTok_nil (s : Bool) : isSentTok s [] = false := by
  cases s <;> rfl

/-- One unfolding of the loop on a sentinel-classified line. -/
lemma scanLoop_cons_sent (sl : Nat) {s : Bool} {limit : Int} {m tr t : List Char}
    {rest : List (List Char)} {bw : Int} (h : isSentTok s t = true) :
    scanLoop s limit m tr (t :: rest) (sl + 1) bw
      = scanLoop s limit m tr rest sl bw := by
  rw [scanLoop, if_pos h]

/-- One unfolding of the loop on a non-empty content line within the limit. -/
lemma scanLoop_cons_content (sl : Nat) {s : Bool} {limit : Int} {m tr t : List Char}
    {rest : List (List Char)} {bw : Int}
    (h : isSentTok s t = false) (hne : t.isEmpty = false)
    (hlim : ¬(bw + (t.length : Int) > limit)) :
    scanLoop s limit m tr (t :: rest) (sl + 1) bw
      = (scanLoop s limit m tr rest (sl + 1) (bw + t.length)).consEmit (munge m t) := by
  rw [scanLoop, if_neg (by simp [h]), if_neg (by simp [hne]), if_neg hlim]

/-- Characterization of the loop on an incident-free token list: it consumes
every sentinel-classified line and emits exactly the munged content lines,
in order, leaving `sentinelsLeft` decremented once per sentinel line. -/
lemma scanLoop_safe (s : Bool) (limit : Int) (m tr : List Char) :
    ∀ (ts : List (List Char)) (sl : Nat) (bw : Int),
      countSent s ts < sl → scanSafe s limit bw ts = true →
      scanLoop s limit m tr ts sl bw
        = .ok (sl - countSent s ts) ((contentToks s ts).map (munge m)) false := by
  intro ts
  induction ts with
  | nil =>
    intro sl bw hcount _
    simp [countSent, contentToks, scanLoop_nil]
  | cons t rest ih =>
    intro sl bw hcount hsafe
    obtain ⟨n, rfl⟩ : ∃ n, sl = n + 1 :=
      ⟨sl - 1, by omega⟩
    by_cases hs : isSentTok s t = true
    · have hc : countSent s (t :: rest) = countSent s rest + 1 := by
        simp [countSent, List.filter, hs]
      have hsafe2 : scanSafe s limit bw rest = true := by
        rw [scanSafe, if_pos hs] at hsafe; exact hsafe
      rw [scanLoop, if_pos hs, ih n bw (by omega) hsafe2]
      have hct : contentToks s (t :: rest) = contentToks s rest := by
        simp [contentToks, List.filter, hs]
      rw [hc, hct]
      congr 1
      omega
    · have hs4 : isSentTok s t = false := by simp at hs; exact hs
      rw [scanSafe, if_neg hs] at hsafe
      simp only [Bool.and_eq_true, decide_eq_true_eq, Bool.not_eq_true'] at hsafe
      obtain ⟨⟨hne, hle⟩, hsafe2⟩ := hsafe
      have hc : countSent s (t :: rest) = countSent s rest := by
        simp [countSent, List.filter, hs4]
      have hct : contentToks s (t :: rest) = t :: contentToks s rest := by
        simp [contentToks, List.filter, hs4]
      rw [scanLoop, if_neg hs, if_neg (by simp [hne]), if_neg (by omega),
        ih (n + 1) (bw + t.length) (by rw [hc] at hcount; omega) hsafe2]
      rw [hc, hct, LoopResult.consEmit]
      simp

/-- Truncation: after an incident-free prefix `ts1`, a non-empty non-sentinel
line `tk` that pushes the byte counter over the limit makes the loop emit the
munged content lines of `ts1`, then `munge tk`, then the synthetic truncation
line, and exit with `sentinelsLeft = 0`; the remaining tokens are skipped. -/
lemma scanLoop_trunc (s : Bool) (limit : Int) (m tr : List Char) :
    ∀ (ts1 : List (List Char)) (tk : List Char) (rest : List (List Char))
      (sl : Nat) (bw : Int),
      countSent s ts1 < sl → scanSafe s limit bw ts1 = true →
      isSentTok s tk = false → tk ≠ [] →
      bw + (contentBytes s ts1 : Int) + tk.length > limit →
      scanLoop s limit m tr (ts1 ++ tk :: rest) sl bw
        = .ok 0 ((contentToks s ts1).map (munge m) ++ [munge m tk, tr]) true := by
  intro ts1
  induction ts1 with
  | nil =>
    intro tk rest sl bw hcount _ hsent hne hover
    obtain ⟨n, rfl⟩ : ∃ n, sl = n + 1 := ⟨sl - 1, by omega⟩
    have hover2 : bw + (tk.length : Int) > limit := by
      simp [contentBytes, contentToks] at hover; omega
    rw [List.nil_append, scanLoop, if_neg (by simp [hsent]),
      if_neg (by simp [hne]), if_pos hover2]
    simp [contentToks]
  | cons t rest1 ih =>
    intro tk rest sl bw hcount hsafe hsent hne hover
    obtain ⟨n, rfl⟩ : ∃ n, sl = n + 1 := ⟨sl - 1, by omega⟩
    by_cases hs : isSentTok s t = true
    · have hc : countSent s (t :: rest1) = countSent s rest1 + 1 := by
        simp [countSent, List.filter, hs]
      have hcb : contentBytes s (t :: rest1) = contentBytes s rest1 := by
        simp [contentBytes, contentToks, List.filter, hs]
      have hsafe2 : scanSafe s limit bw rest1 = true := by
        rw [scanSafe, if_pos hs] at hsafe; exact hsafe
      rw [List.cons_append, scanLoop, if_pos hs,
        ih tk rest n bw (by omega) hsafe2 hsent hne (by rw [hcb] at hover; omega)]
      have hct : contentToks s (t :: rest1) = contentToks s rest1 := by
        simp [contentToks, List.filter, hs]
      rw [hct]
    · have hs4 : isSentTok s t = false := by simp at hs; exact hs
      rw [scanSafe, if_neg hs] at hsafe
      simp only [Bool.and_eq_true, decide_eq_true_eq, Bool.not_eq_true'] at hsafe
      obtain ⟨⟨hne1, hle⟩, hsafe2⟩ := hsafe
      have hc : countSent s (t :: rest1) = countSent s rest1 := by
        simp [countSent, List.filter, hs4]
      have hcb : contentBytes s (t :: rest1) = t.length + contentBytes s rest1 := by
        simp [contentBytes, contentToks, List.filter, hs4]
      have hct : contentToks s (t :: rest1) = t :: contentToks s rest1 := by
        simp [contentToks, List.filter, hs4]
      rw [List.cons_append, scanLoop, if_neg hs, if_neg (by simp [hne1]),
        if_neg (by omega),
        ih tk rest (n + 1) (bw + t.length) (by rw [hc] at hcount; omega) hsafe2
          hsent hne (by rw [hcb] at hover; push_cast at hover ⊢; omega)]
      rw [hct, LoopResult.consEmit]
      simp

/-- Panic: after an incident-free prefix `ts1`, an empty line reached as
content makes the loop panic in the munging slice, with only the munged
content lines of `ts1` already pushed. -/
lemma scanLoop_panic (s : Bool) (limit : Int) (m tr : List Char) :
    ∀ (ts1 rest : List (List Char)) (sl : Nat) (bw : Int),
      countSent s ts1 < sl → scanSafe s limit bw ts1 = true →
      scanLoop s limit m tr (ts1 ++ [] :: rest) sl bw
        = .panicked ((contentToks s ts1).map (munge m)) := by
  intro ts1
  induction ts1 with
  | nil =>
    intro rest sl bw hcount _
    obtain ⟨n, rfl⟩ : ∃ n, sl = n + 1 := ⟨sl - 1, by omega⟩
    rw [List.nil_append, scanLoop, if_neg (by simp [isSentTok_nil])]
    simp [contentToks]
  | cons t rest1 ih =>
    intro rest sl bw hcount hsafe
    obtain ⟨n, rfl⟩ : ∃ n, sl = n + 1 := ⟨sl - 1, by omega⟩
    by_cases hs : isSentTok s t = true
    · have hc : countSent s (t :: rest1) = countSent s rest1 + 1 := by
        simp [countSent, List.filter, hs]
      have hsafe2 : scanSafe s limit bw rest1 = true := by
        rw [scanSafe, if_pos hs] at hsafe; exact hsafe
      rw [List.cons_append, scanLoop, if_pos hs, ih rest n bw (by omega) hsafe2]
      have hct : contentToks s (t :: rest1) = contentToks s rest1 := by
        simp [contentToks, List.filter, hs]
      rw [hct]
    · have hs4 : isSentTok s t = false := by simp at hs; exact hs
      rw [scanSafe, if_neg hs] at hsafe
      simp only [Bool.and_eq_true, decide_eq_true_eq, Bool.not_eq_true'] at hsafe
      obtain ⟨⟨hne1, hle⟩, hsafe2⟩ := hsafe
      have hc : countSent s (t :: rest1) = countSent s rest1 := by
        simp [countSent, List.filter, hs4]
      have hct : contentToks s (t :: rest1) = t :: contentToks s rest1 := by
        simp [contentToks, List.filter, hs4]
      rw [List.cons_append, scanLoop, if_neg hs, if_neg (by simp [hne1]),
        if_neg (by omega), ih rest (n + 1) (bw + t.length) (by rw [hc] at hcount; omega) hsafe2]
      rw [hct, LoopResult.consEmit]
      simp

/-- The loop never panics when every content-classified token is non-empty. -/
lemma scanLoop_no_panic (s : Bool) (limit : Int) (m tr : List Char) :
    ∀ (ts : List (List Char)),
      (∀ t ∈ ts, isSentTok s t = false → t ≠ []) →
      ∀ (sl : Nat) (bw : Int) (e : List (List Char)),
        scanLoop s limit m tr ts sl bw ≠ .panicked e := by
  intro ts
  induction ts with
  | nil =>
    intro _ sl bw e
    rw [scanLoop_nil]
    simp
  | cons t rest ih =>
    intro hne sl bw e
    match sl with
    | 0 => rw [scanLoop_zero]; simp
    | n + 1 =>
      by_cases hs : isSentTok s t = true
      · rw [scanLoop, if_pos hs]
        exact ih (fun u hu => hne u (List.mem_cons_of_mem t hu)) n bw e
      · have hs4 : isSentTok s t = false := by simp at hs; exact hs
        have hne1 : t ≠ [] := hne t (List.mem_cons_self t rest) hs4
        rw [scanLoop, if_neg hs, if_neg (by simp [hne1])]
        by_cases hover : bw + (t.length : Int) > limit
        · rw [if_pos hover]; simp
        · rw [if_neg hover]
          intro hcon
          cases hres : scanLoop s limit m tr rest (n + 1) (bw + t.length) with
          | ok sl2 e2 tr2 =>
            rw [hres, LoopResult.consEmit] at hcon
            exact LoopResult.noConfusion hcon
          | panicked e2 =>
            exact ih (fun u hu => hne u (List.mem_cons_of_mem t hu)) (n + 1)
              (bw + t.length) e2 hres

/-- Every successful `logScan` started from a non-negative offset, and its
returned offset — the descriptor position, i.e. the supplied offset plus
the clamped read-ahead, or end-of-file after the truncation seek — lies
between the supplied offset and `max lastOffset fileLength`. -/
lemma logScan_ok_offset {ra : Nat} {f now : List Char} {lfi : LogForwardInfo}
    {e : List (List Char)} {r : Int}
    (h : logScan ra (some f) now lfi = .ok e r) :
    0 ≤ lfi.lastOffset ∧ lfi.lastOffset ≤ r
      ∧ r ≤ max lfi.lastOffset (f.length : Int) := by
  simp only [logScan] at h
  by_cases hneg : lfi.lastOffset < 0
  · rw [if_pos hneg] at h; cases h
  · rw [if_neg hneg] at h
    refine ⟨by omega, ?_⟩
    split at h
    · cases h
    · rename_i sl e1 trunc heq
      split at h
      · cases h
      · cases trunc with
        | true =>
          have hne : splitLines (f.drop lfi.lastOffset.toNat) ≠ [] := by
            intro hnil
            rw [hnil, scanLoop_nil] at heq
            simp at heq
          have hlt : lfi.lastOffset.toNat < f.length := by
            by_contra hge
            exact hne (by rw [List.drop_eq_nil_of_le (by omega)]; rfl)
          cases h
          refine ⟨by simp; omega, ?_⟩
          simp only [if_pos rfl]
          exact le_max_right _ _
        | false =>
          cases h
          have hdl : (f.drop lfi.lastOffset.toNat).length
              = f.length - lfi.lastOffset.toNat := List.length_drop _ _
          have hmin : min ra (f.drop lfi.lastOffset.toNat).length
              ≤ (f.drop lfi.lastOffset.toNat).length := Nat.min_le_right _ _
          simp only [Bool.false_eq_true, if_false]
          rcases le_total lfi.lastOffset (f.length : Int) with hc | hc
          · rw [max_eq_right hc]
            constructor <;> omega
          · rw [max_eq_left hc]
            constructor <;> omega

/-- A scan whose offset lies at or past end-of-file reads no tokens (so the
read-ahead is clamped to zero): in sentinel mode it fails with the sentinel
error having pushed nothing, and otherwise it succeeds pushing only the
activation record and returning the unchanged offset. -/
lemma logScan_past_eof {ra : Nat} {f now : List Char} {lfi : LogForwardInfo}
    (h0 : 0 ≤ lfi.lastOffset) (hlen : (f.length : Int) ≤ lfi.lastOffset) :
    logScan ra (some f) now lfi
      = if lfi.sentinelledLogs = true
        then .error [] .sentinelsNotFound
        else .ok [lfi.encodedActivation] lfi.lastOffset := by
  have hdrop : f.drop lfi.lastOffset.toNat = [] :=
    List.drop_eq_nil_of_le (by omega)
  simp only [logScan, if_neg (show ¬lfi.lastOffset < 0 by omega), hdrop]
  rw [show splitLines [] = [] from rfl, scanLoop_nil]
  by_cases hs : lfi.sentinelledLogs = true
  · simp [hs]
  · simp [hs]

/-! ### Concrete inputs used by witnesses and counterexamples -/

/-- The container file of the spec's concrete scenario. -/
def c2File : List Char :=
  ("\x7b\"a\":1\x7d\n\x7b\"a\":2\x7d\nXXX_THE_END_OF_A_WHISK_ACTIVATION_XXX\nXXX_THE_END_OF_A_WHISK_ACTIVATION_XXX\n").data

/-- The cursor of the spec's concrete scenario. -/
def c2Lfi : LogForwardInfo :=
  { lastOffset := 0, sizeLimit := 1000, sentinelledLogs := true
    encodedLogLineMetadata := ("\"foo\":\"bar\"").data
    encodedActivation := ("ACT1").data }

/-- A standard sentinel-mode cursor with a large size limit. -/
def lfiStd : LogForwardInfo :=
  { lastOffset := 0, sizeLimit := 1000, sentinelledLogs := true
    encodedLogLineMetadata := ("M").data
    encodedActivation := ("ACT").data }

/-- A non-sentinel cursor with a large size limit. -/
def lfiNS : LogForwardInfo :=
  { lfiStd with sentinelledLogs := false }

/-- A cursor asking for a negative (unreachable) offset. -/
def lfiNeg : LogForwardInfo :=
  { lfiStd with lastOffset := -1 }

/-- A file whose second line strictly contains the sentinel marker. -/
def c1File : List Char :=
  ("ab\nxXXX_THE_END_OF_A_WHISK_ACTIVATION_XXX\nXXX_THE_END_OF_A_WHISK_ACTIVATION_XXX\n").data

/-- A file with one content line and no sentinel lines. -/
def oneLineFile : List Char := ("ab\n").data

/-- A file with both sentinels mid-file followed by further data. -/
def c5File : List Char :=
  ("ab\nXXX_THE_END_OF_A_WHISK_ACTIVATION_XXX\nXXX_THE_END_OF_A_WHISK_ACTIVATION_XXX\nxyz\n").data

/-! ### Claim theorems -/

/-- C2: on the concrete scenario file (two JSON lines followed by two exact
sentinel lines), scanned with lastOffset 0, sizeLimit 1000, sentinel mode,
metadata `"foo":"bar"` and activation record ACT1, the scan succeeds, pushes
exactly the two munged content lines (each ending in `,"foo":"bar"` plus a
closing brace) followed by ACT1, and returns the byte length of the file. -/
theorem c2_concrete_scenario :
    logScan 4096 (some c2File) [] c2Lfi
      = .ok [("\x7b\"a\":1,\"foo\":\"bar\"\x7d").data,
             ("\x7b\"a\":2,\"foo\":\"bar\"\x7d").data,
             ("ACT1").data] (c2File.length : Int)
    ∧ List.isSuffixOf ((",\"foo\":\"bar\"\x7d").data)
        (("\x7b\"a\":1,\"foo\":\"bar\"\x7d").data) = true
    ∧ List.isSuffixOf ((",\"foo\":\"bar\"\x7d").data)
        (("\x7b\"a\":2,\"foo\":\"bar\"\x7d").data) = true
    ∧ c2File.length = 92 :=
  ⟨by decide, by decide, by decide, by decide⟩

/-- C5 (amended): for every successful scan (at any read-ahead), the
returned resume offset is at least the supplied lastOffset and at most
`max lastOffset fileLength`; it is the descriptor's read position — the
supplied offset plus the scanner's buffered read-ahead, or end-of-file
after the truncation seek — which can lie strictly beyond the byte
position immediately after the last line the scan consumed. -/
theorem c5_resume_offset (ra : Nat) (f now : List Char) (lfi : LogForwardInfo)
    (e : List (List Char)) (r : Int)
    (h : logScan ra (some f) now lfi = .ok e r) :
    lfi.lastOffset ≤ r ∧ r ≤ max lfi.lastOffset (f.length : Int) :=
  (logScan_ok_offset h).2

/-- C5 counterexample: on an 83-byte file whose two sentinel lines are
followed by further data, the region fits the scanner's first 4096-byte
read, so the loop stops after the second sentinel with the descriptor at
end-of-file: the scan consumes lines only up to byte position 79 but
returns resume offset 83, so the returned offset is not the byte position
immediately after the last line the scan consumed. -/
theorem c5_counterexample :
    logScan 4096 (some c5File) [] lfiStd
      = .ok [("a,M\x7d").data, ("ACT").data] 83
    ∧ (("ab\nXXX_THE_END_OF_A_WHISK_ACTIVATION_XXX\nXXX_THE_END_OF_A_WHISK_ACTIVATION_XXX\n").data).length = 79
    ∧ (83 : Int) ≠ 79 :=
  ⟨by decide, by decide, by decide⟩

theorem c5_resume_offset_witness :
    lfiStd.lastOffset ≤ 83
    ∧ (83 : Int) ≤ max lfiStd.lastOffset (c5File.length : Int) :=
  c5_resume_offset 4096 c5File [] lfiStd [("a,M\x7d").data, ("ACT").data] 83
    (by decide)

/-- C6: when the container log file cannot be opened, and when the seek to
lastOffset fails (a negative requested offset, the one way the achieved
offset can miss the requested one), the scan returns a definite failure
with no lines pushed to the queue and no resume offset produced. -/
theorem c6_open_seek_failures (ra : Nat) (f now : List Char) (lfi : LogForwardInfo) :
    logScan ra none now lfi = .error [] .openFailed
    ∧ (lfi.lastOffset < 0 → logScan ra (some f) now lfi = .error [] .seekFailed) := by
  refine ⟨rfl, fun hneg => ?_⟩
  simp only [logScan, if_pos hneg]

theorem c6_open_seek_failures_witness :
    logScan 4096 none [] lfiStd = .error [] .openFailed
    ∧ logScan 4096 (some oneLineFile) [] lfiNeg = .error [] .seekFailed :=
  ⟨(c6_open_seek_failures 4096 oneLineFile [] lfiStd).1,
   (c6_open_seek_failures 4096 oneLineFile [] lfiNeg).2 (by decide)⟩

/-- C8 (amended): resumption is idempotent whenever the first scan's
returned resume offset r reached end-of-file — which is the case exactly
when the readable region fits within the scanner's read-ahead or the
truncation seek ran.  Then a second scan of the unchanged file from
lastOffset = r reads no tokens and forwards zero content lines: it pushes
nothing at all in sentinel mode (failing on the missing sentinels), and
pushes only the activation record otherwise, returning r again.  When r is
strictly below end-of-file (an early sentinel exit in a region larger than
the scanner's read-ahead) the second scan instead reads and forwards the
lines beyond r. -/
theorem c8_resumption_idempotent (ra1 ra2 : Nat) (f now now2 : List Char)
    (lfi lfi2 : LogForwardInfo) (e : List (List Char)) (r : Int)
    (h1 : logScan ra1 (some f) now lfi = .ok e r)
    (heof : (f.length : Int) ≤ r)
    (h2 : lfi2.lastOffset = r) :
    logScan ra2 (some f) now2 lfi2
      = if lfi2.sentinelledLogs = true
        then .error [] .sentinelsNotFound
        else .ok [lfi2.encodedActivation] r := by
  obtain ⟨h0, hlo, hhi⟩ := logScan_ok_offset h1
  have h02 : 0 ≤ lfi2.lastOffset := by rw [h2]; omega
  have hlen : (f.length : Int) ≤ lfi2.lastOffset := by rw [h2]; exact heof
  rw [logScan_past_eof h02 hlen, h2]

theorem c8_resumption_idempotent_witness :
    logScan 4096 (some oneLineFile) [] { lfiNS with lastOffset := 3 }
      = if ({ lfiNS with lastOffset := 3 } : LogForwardInfo).sentinelledLogs = true
        then .error [] .sentinelsNotFound
        else .ok [({ lfiNS with lastOffset := 3 } : LogForwardInfo).encodedActivation] 3 :=
  c8_resumption_idempotent 4096 4096 oneLineFile [] [] lfiNS
    { lfiNS with lastOffset := 3 } [("a,M\x7d").data, ("ACT").data] 3
    (by decide) (by decide) (by decide)

/-- One content line followed by two exact sentinel lines (79 bytes). -/
def c8Head : List Char :=
  ("ab\nXXX_THE_END_OF_A_WHISK_ACTIVATION_XXX\nXXX_THE_END_OF_A_WHISK_ACTIVATION_XXX\n").data

/-- Two exact sentinel lines (76 bytes). -/
def sentPair : List Char :=
  ("XXX_THE_END_OF_A_WHISK_ACTIVATION_XXX\nXXX_THE_END_OF_A_WHISK_ACTIVATION_XXX\n").data

/-- A file larger than the scanner's first 4096-byte read: one content line
and two sentinel lines (79 bytes), then a 4100-byte content line and two
further sentinel lines (4256 bytes in total). -/
def c8BigFile : List Char :=
  c8Head ++ List.replicate 4100 'c' ++ '\x0a' :: sentPair

lemma c8BigFile_length : c8BigFile.length = 4256 := by
  simp only [c8BigFile, List.length_append, List.length_cons, List.length_replicate]
  decide

set_option maxRecDepth 10000 in
/-- Tokenizing any data that starts with `c8Head` yields the head's three
lines and then the tokens of the remainder. -/
lemma splitLinesAux_c8Head (cs : List Char) :
    splitLinesAux [] (c8Head ++ cs)
      = ("ab").data :: logSentinelLine :: logSentinelLine :: splitLinesAux [] cs :=
  rfl

/-- The scanning loop over `c8Head`'s three tokens stops at the second
sentinel line without looking at the remaining tokens. -/
lemma scanLoop_c8 (rest : List (List Char)) (tr : List Char) :
    scanLoop true 1000 (("M").data) tr
      (("ab").data :: logSentinelLine :: logSentinelLine :: rest) 2 0
      = .ok 0 [("a,M\x7d").data] false := by
  rw [show (2 : Nat) = 1 + 1 from rfl,
    scanLoop_cons_content 1 (by decide) (by decide) (by decide),
    scanLoop_cons_sent 1 (by decide),
    show (1 : Nat) = 0 + 1 from rfl,
    scanLoop_cons_sent 0 (by decide),
    scanLoop_zero]
  decide

/-- `logScan` on an opened file, rewritten through the region the seek and
the reads expose and the file's length. -/
lemma logScan_eval (ra : Nat) (f reg now : List Char) (lfi : LogForwardInfo)
    (n : Nat) (h0 : ¬lfi.lastOffset < 0)
    (hreg : f.drop lfi.lastOffset.toNat = reg) (hn : f.length = n) :
    logScan ra (some f) now lfi
      = match scanLoop lfi.sentinelledLogs lfi.sizeLimit
          lfi.encodedLogLineMetadata
          (writeSyntheticLogLine (truncatedLogMessage lfi.sizeLimit) now
            lfi.encodedLogLineMetadata) (splitLines reg) 2 0 with
        | .panicked e => .panicked e
        | .ok sl e truncated =>
          if lfi.sentinelledLogs = true ∧ sl ≠ 0 then .error e .sentinelsNotFound
          else .ok (e ++ [lfi.encodedActivation])
            (if truncated then (n : Int)
             else lfi.lastOffset + (min ra reg.length : Nat)) := by
  simp only [logScan, if_neg h0, hreg, hn]

lemma c8_first_scan :
    logScan 4096 (some c8BigFile) [] lfiStd
      = .ok [("a,M\x7d").data, ("ACT").data] 4096 := by
  rw [logScan_eval 4096 c8BigFile c8BigFile [] lfiStd 4256 (by decide)
    (by rw [show lfiStd.lastOffset.toNat = 0 from rfl]; exact List.drop_zero _)
    c8BigFile_length]
  rw [show splitLines c8BigFile
      = splitLinesAux [] (c8Head ++ (List.replicate 4100 'c' ++ '\x0a' :: sentPair))
    from rfl]
  simp only [lfiStd]
  rw [splitLinesAux_c8Head, scanLoop_c8]
  rw [show min 4096 c8BigFile.length = 4096 by rw [c8BigFile_length]; decide]
  decide

set_option maxRecDepth 2000 in
lemma c8_second_scan :
    logScan 4096 (some c8BigFile) [] { lfiStd with lastOffset := 4096 }
      = .ok [munge (("M").data) (List.replicate 83 'c'), ("ACT").data] 4256 := by
  have hreg : c8BigFile.drop
      (({ lfiStd with lastOffset := 4096 } : LogForwardInfo).lastOffset.toNat)
      = List.replicate 83 'c' ++ '\x0a' :: sentPair := by
    rw [show ({ lfiStd with lastOffset := 4096 } :
        LogForwardInfo).lastOffset.toNat = 4096 from rfl]
    rw [show c8BigFile = c8Head ++ (List.replicate 4100 'c' ++ '\x0a' :: sentPair)
      from rfl]
    rw [List.drop_append_eq_append_drop,
      show List.drop 4096 c8Head = [] by decide,
      show (4096 - c8Head.length) = 4017 by decide,
      List.drop_append_eq_append_drop,
      List.drop_replicate,
      show (4100 - 4017) = 83 by decide,
      show (4017 - (List.replicate 4100 'c').length) = 0 by
        rw [List.length_replicate],
      List.drop_zero, List.nil_append]
  rw [logScan_eval 4096 c8BigFile (List.replicate 83 'c' ++ '\x0a' :: sentPair)
    [] { lfiStd with lastOffset := 4096 } 4256 (by decide) hreg c8BigFile_length]
  decide

/-- C8 counterexample: on a 4256-byte file whose first two sentinel lines
lie inside the scanner's first 4096-byte read, the first sentinel-mode scan
stops at the second sentinel with the descriptor at 4096 and returns resume
offset 4096, strictly below the 4256-byte end-of-file; a second scan from
lastOffset 4096 with no bytes appended in between forwards a new
(mis-split) content line — the last 83 characters of the long line,
munged — before consuming the two remaining sentinel lines, so the second
call forwards a nonzero number of newly forwarded content lines, refuting
the claimed idempotence. -/
theorem c8_counterexample :
    c8BigFile.length = 4256
    ∧ logScan 4096 (some c8BigFile) [] lfiStd
      = .ok [("a,M\x7d").data, ("ACT").data] 4096
    ∧ (4096 : Int) < 4256
    ∧ logScan 4096 (some c8BigFile) [] { lfiStd with lastOffset := 4096 }
      = .ok [munge (("M").data) (List.replicate 83 'c'), ("ACT").data] 4256
    ∧ munge (("M").data) (List.replicate 83 'c') ≠ ("ACT").data :=
  ⟨c8BigFile_length, c8_first_scan, by decide, c8_second_scan, by decide⟩

/-- C10: `parseLogForwardInfo` passes a nil `*LogForwardInfo` to
`json.Unmarshal`, which rejects a nil target before examining the data, so
parsing fails for every request body and every conceivable decoder; the
handler therefore always answers 400, pushes nothing, and never invokes the
scanner. -/
theorem c10_parse_always_fails
    (decode : List Char → Except Unit LogForwardInfo)
    (ra : Nat) (file : Option (List Char)) (now body : List Char) :
    parseLogForwardInfo decode body = .error ()
    ∧ forwardLogsFromUserAction decode ra file now body
      = { status := 400, sinkPushes := [], responseOffset := none
          scanInvoked := false, panicked := false } :=
  ⟨rfl, rfl⟩

/-- C1 (amended): during a sentinel-mode scan, a line is consumed as a
sentinel — decrementing the remaining-sentinel count without being
forwarded — if and only if it contains the sentinel marker text as a
substring (the code uses `strings.Contains`, not exact equality); every
non-empty line not containing the marker is munged and forwarded. -/
theorem c1_sentinel_consumption (limit : Int) (m tr tok : List Char)
    (rest : List (List Char)) (sl : Nat) (bw : Int)
    (hsl : 1 ≤ sl) (hne : tok ≠ []) :
    (stringsContains tok logSentinelLine = true →
      scanLoop true limit m tr (tok :: rest) sl bw
        = scanLoop true limit m tr rest (sl - 1) bw)
    ∧ (stringsContains tok logSentinelLine = false →
      scanLoop true limit m tr (tok :: rest) sl bw
        = (if bw + (tok.length : Int) > limit
           then .ok 0 [munge m tok, tr] true
           else (scanLoop true limit m tr rest sl (bw + tok.length)).consEmit
             (munge m tok))) := by
  obtain ⟨n, rfl⟩ : ∃ n, sl = n + 1 := ⟨sl - 1, by omega⟩
  constructor
  · intro hcont
    rw [scanLoop, if_pos (by simp [isSentTok, hcont])]
    simp
  · intro hcont
    rw [scanLoop, if_neg (by simp [isSentTok, hcont]), if_neg (by simp [hne])]

theorem c1_sentinel_consumption_witness :
    scanLoop true 1000 (("M").data) [] [logSentinelLine] 2 0
      = scanLoop true 1000 (("M").data) [] [] 1 0 :=
  (c1_sentinel_consumption 1000 (("M").data) [] logSentinelLine [] 2 0
    (by decide) (by decide)).1 (by decide)

/-- C1 counterexample: the second line of the file strictly contains the
marker without being equal to it, yet the sentinel-mode scan consumes it as
a sentinel: the scan succeeds (both sentinel slots filled although only one
line equals the marker exactly) and no munging of that line is forwarded. -/
theorem c1_counterexample :
    ("xXXX_THE_END_OF_A_WHISK_ACTIVATION_XXX").data ≠ logSentinelLine
    ∧ stringsContains (("xXXX_THE_END_OF_A_WHISK_ACTIVATION_XXX").data)
        logSentinelLine = true
    ∧ logScan 4096 (some c1File) [] lfiStd
      = .ok [("a,M\x7d").data, ("ACT").data] (c1File.length : Int)
    ∧ munge (("M").data) (("xXXX_THE_END_OF_A_WHISK_ACTIVATION_XXX").data)
      ∉ [("a,M\x7d").data, ("ACT").data] :=
  ⟨by decide, by decide, by decide, by decide⟩

/-- C3 (amended): a sentinel-mode scan of a readable file whose readable
region contains fewer than two sentinel-containing lines reports the
incomplete-activation failure with no resume offset, every munged content
line read having already been pushed to the queue and the activation record
being pushed (after the generic synthetic error notice, when metadata is
non-empty) before the failure is returned — provided the scan runs without
incident: the size limit is never exceeded (truncation would instead force
success) and no content line is empty (which would instead panic). -/
theorem c3_missing_sentinels (ra : Nat) (f now : List Char) (lfi : LogForwardInfo)
    (hsent : lfi.sentinelledLogs = true) (hoff : 0 ≤ lfi.lastOffset)
    (hcount : countSent true (splitLines (f.drop lfi.lastOffset.toNat)) < 2)
    (hsafe : scanSafe true lfi.sizeLimit 0
      (splitLines (f.drop lfi.lastOffset.toNat)) = true) :
    handleScanRequest ra (some f) now lfi
      = { status := 500
          sinkPushes :=
            (contentToks true (splitLines (f.drop lfi.lastOffset.toNat))).map
              (munge lfi.encodedLogLineMetadata)
            ++ reportLoggingErrorPushes now lfi.encodedLogLineMetadata
            ++ [lfi.encodedActivation]
          responseOffset := none, scanInvoked := true, panicked := false } := by
  have hscan : logScan ra (some f) now lfi
      = .error ((contentToks true (splitLines (f.drop lfi.lastOffset.toNat))).map
          (munge lfi.encodedLogLineMetadata)) .sentinelsNotFound := by
    simp only [logScan, if_neg (show ¬lfi.lastOffset < 0 by omega), hsent]
    rw [scanLoop_safe true lfi.sizeLimit lfi.encodedLogLineMetadata _ _ 2 0
      hcount hsafe]
    simp only []
    rw [if_pos ⟨by trivial, by omega⟩]
  simp only [handleScanRequest, hscan]

theorem c3_missing_sentinels_witness :
    handleScanRequest 4096 (some oneLineFile) [] lfiStd
      = { status := 500
          sinkPushes :=
            (contentToks true (splitLines (oneLineFile.drop lfiStd.lastOffset.toNat))).map
              (munge lfiStd.encodedLogLineMetadata)
            ++ reportLoggingErrorPushes [] lfiStd.encodedLogLineMetadata
            ++ [lfiStd.encodedActivation]
          responseOffset := none, scanInvoked := true, panicked := false } :=
  c3_missing_sentinels 4096 oneLineFile [] lfiStd (by decide) (by decide)
    (by decide) (by decide)

/-- A sentinel-mode cursor whose size limit is zero. -/
def lfiTrunc0 : LogForwardInfo := { lfiStd with sizeLimit := 0 }

/-- C3 counterexample: sentinel mode over a readable region with zero
sentinel lines, but with size limit 0: the single content line triggers the
truncation branch, which forces the sentinel counter to zero, so the scan
succeeds and produces a resume offset instead of reporting the claimed
incomplete-activation failure. -/
theorem c3_counterexample :
    countSent true (splitLines oneLineFile) < 2
    ∧ logScan 4096 (some oneLineFile) [] lfiTrunc0
      = .ok [("a,M\x7d").data,
             writeSyntheticLogLine (truncatedLogMessage 0) [] (("M").data),
             ("ACT").data] 3 :=
  ⟨by decide, by decide⟩

/-- C4 (amended): when the truncation check first fires at content line k —
its incident-free prefix containing fewer than two sentinel lines and, in
particular, no empty content line (an empty one would panic the scan
instead) — the scan pushes the munged content lines 1..k, then exactly one
synthetic truncation notice embedding the size limit, then the activation
record, and returns the end-of-file position as resume offset rather than
the byte position just after line k. -/
theorem c4_truncation (ra : Nat) (f now : List Char) (lfi : LogForwardInfo)
    (ts1 : List (List Char)) (tk : List Char) (rest : List (List Char))
    (hoff : 0 ≤ lfi.lastOffset) (hlen : lfi.lastOffset ≤ (f.length : Int))
    (htoks : splitLines (f.drop lfi.lastOffset.toNat) = ts1 ++ tk :: rest)
    (hcount : countSent lfi.sentinelledLogs ts1 < 2)
    (hsafe : scanSafe lfi.sentinelledLogs lfi.sizeLimit 0 ts1 = true)
    (hsent : isSentTok lfi.sentinelledLogs tk = false) (hne : tk ≠ [])
    (hover : (contentBytes lfi.sentinelledLogs ts1 : Int) + tk.length
      > lfi.sizeLimit) :
    logScan ra (some f) now lfi
      = .ok ((contentToks lfi.sentinelledLogs ts1).map
            (munge lfi.encodedLogLineMetadata)
          ++ [munge lfi.encodedLogLineMetadata tk,
              writeSyntheticLogLine (truncatedLogMessage lfi.sizeLimit) now
                lfi.encodedLogLineMetadata,
              lfi.encodedActivation])
          (f.length : Int) := by
  simp only [logScan, if_neg (show ¬lfi.lastOffset < 0 by omega), htoks]
  rw [scanLoop_trunc lfi.sentinelledLogs lfi.sizeLimit lfi.encodedLogLineMetadata
    _ ts1 tk rest 2 0 hcount hsafe hsent hne (by omega)]
  simp only []
  rw [if_neg (by intro hc; exact hc.2 rfl)]
  simp

theorem c4_truncation_witness :
    logScan 4096 (some (("aaaa\n").data)) [] { lfiNS with sizeLimit := 3 }
      = .ok ((contentToks false []).map (munge (("M").data))
          ++ [munge (("M").data) (("aaaa").data),
              writeSyntheticLogLine (truncatedLogMessage 3) [] (("M").data),
              ("ACT").data])
          ((("aaaa\n").data).length : Int) :=
  c4_truncation 4096 (("aaaa\n").data) [] { lfiNS with sizeLimit := 3 }
    [] (("aaaa").data) [] (by decide) (by decide) (by decide) (by decide)
    (by decide) (by decide) (by decide) (by decide)

/-- C4 counterexample: for the file consisting of an empty line then a
4-byte line, with size limit 3, the cumulative content byte length first
exceeds the limit at line 2, yet the scan forwards nothing and pushes no
truncation notice: it panics on the empty line 1 before reaching line 2. -/
theorem c4_counterexample :
    logScan 4096 (some (("\naaaa\n").data)) [] { lfiNS with sizeLimit := 3 }
      = .panicked [] := by
  decide

/-- C9: the content-line munging is only defined for non-empty lines: a
scan that reaches an empty line as content (after an incident-free prefix)
panics in the slice expression, with only the earlier munged lines pushed,
instead of returning an error; and whenever every content-classified token
of the readable region is non-empty, the panic branch is unreachable. -/
theorem c9_empty_line_panic (ra : Nat) (f now : List Char) (lfi : LogForwardInfo)
    (ts1 rest : List (List Char))
    (hoff : 0 ≤ lfi.lastOffset)
    (htoks : splitLines (f.drop lfi.lastOffset.toNat) = ts1 ++ [] :: rest)
    (hcount : countSent lfi.sentinelledLogs ts1 < 2)
    (hsafe : scanSafe lfi.sentinelledLogs lfi.sizeLimit 0 ts1 = true) :
    logScan ra (some f) now lfi
      = .panicked ((contentToks lfi.sentinelledLogs ts1).map
          (munge lfi.encodedLogLineMetadata))
    ∧ ∀ (g : List Char) (lfi2 : LogForwardInfo) (e : List (List Char)),
        (∀ t ∈ splitLines (g.drop lfi2.lastOffset.toNat),
          isSentTok lfi2.sentinelledLogs t = false → t ≠ []) →
        logScan ra (some g) now lfi2 ≠ .panicked e := by
  constructor
  · simp only [logScan, if_neg (show ¬lfi.lastOffset < 0 by omega), htoks]
    rw [scanLoop_panic lfi.sentinelledLogs lfi.sizeLimit lfi.encodedLogLineMetadata
      _ ts1 rest 2 0 hcount hsafe]
  · intro g lfi2 e hall
    simp only [logScan]
    split
    · simp
    · cases hres : scanLoop lfi2.sentinelledLogs lfi2.sizeLimit
          lfi2.encodedLogLineMetadata
          (writeSyntheticLogLine (truncatedLogMessage lfi2.sizeLimit) now
            lfi2.encodedLogLineMetadata)
          (splitLines (g.drop lfi2.lastOffset.toNat)) 2 0 with
      | ok sl e2 tr2 =>
        split
        · simp_all
        · split <;> simp
      | panicked e2 =>
        exact absurd hres (scanLoop_no_panic lfi2.sentinelledLogs lfi2.sizeLimit
          lfi2.encodedLogLineMetadata _ _ hall 2 0 e2)

theorem c9_empty_line_panic_witness :
    logScan 4096 (some (("\n").data)) [] lfiStd = .panicked []
    ∧ logScan 4096 (some oneLineFile) [] lfiStd ≠ .panicked [] :=
  ⟨(c9_empty_line_panic 4096 (("\n").data) [] lfiStd [] [] (by decide) (by decide)
      (by decide) (by decide)).1,
   (c9_empty_line_panic 4096 (("\n").data) [] lfiStd [] [] (by decide) (by decide)
      (by decide) (by decide)).2 oneLineFile lfiStd [] (by decide)⟩

/-- C7: the sink writer's invariant on processing one line: the line itself
is written; when no file was open a freshly named file is used and the
counter restarts from zero (the new counter is exactly the line's bytes
plus one for the terminator); when a file was open the same file receives
the line and its counter grows by the bytes written; the open handle is
cleared exactly when the new counter exceeds the rotation threshold; the
freshness invariant is preserved; and once the handle is cleared the next
processed line is written to a file distinct from the one just closed. -/
theorem c7_sink_rotation (T : Int) (st : SinkState) (line : List Char)
    (hinv : SinkInv st) :
    (logWriterStep T st line).2.2 = line
    ∧ (st.sinkFile = none →
        (logWriterStep T st line).2.1 = st.nextId
        ∧ (logWriterStep T st line).1.nextId = st.nextId + 1
        ∧ ((logWriterStep T st line).1.sinkFile = none
            ∨ (logWriterStep T st line).1.sinkFile
              = some (st.nextId, (line.length : Int) + 1)))
    ∧ (∀ fid b, st.sinkFile = some (fid, b) →
        (logWriterStep T st line).2.1 = fid
        ∧ (logWriterStep T st line).1.nextId = st.nextId
        ∧ ((logWriterStep T st line).1.sinkFile = none
            ∨ (logWriterStep T st line).1.sinkFile
              = some (fid, b + line.length + 1)))
    ∧ (st.sinkFile = none →
        ((line.length : Int) + 1 > T
          ↔ (logWriterStep T st line).1.sinkFile = none))
    ∧ (∀ fid b, st.sinkFile = some (fid, b) →
        (b + line.length + 1 > T
          ↔ (logWriterStep T st line).1.sinkFile = none))
    ∧ SinkInv (logWriterStep T st line).1
    ∧ ((logWriterStep T st line).1.sinkFile = none →
        ∀ line2 : List Char,
          (logWriterStep T (logWriterStep T st line).1 line2).2.1
            ≠ (logWriterStep T st line).2.1) := by
  obtain ⟨sf, nid⟩ := st
  cases sf with
  | none =>
    by_cases hrot : T < (line.length : Int) + 1
    · refine ⟨rfl, ?_, ?_, ?_, ?_, ?_, ?_⟩
      · intro _
        refine ⟨rfl, rfl, Or.inl ?_⟩
        simp [logWriterStep]
        omega
      · intro fid b hcon; cases hcon
      · intro _
        constructor
        · intro _
          simp [logWriterStep]
          omega
        · intro _
          omega
      · intro fid b hcon; cases hcon
      · intro fid b h
        simp [logWriterStep] at h ⊢
        omega
      · intro _ line2
        simp only [logWriterStep]
        rw [if_pos (show (0 : Int) + ((line.length : Int) + 1) > T by omega)]
        show nid + 1 ≠ nid
        omega
    · refine ⟨rfl, ?_, ?_, ?_, ?_, ?_, ?_⟩
      · intro _
        refine ⟨rfl, rfl, Or.inr ?_⟩
        simp [logWriterStep]
        omega
      · intro fid b hcon; cases hcon
      · intro _
        constructor
        · intro hgt
          simp [logWriterStep]
          omega
        · intro hcl
          simp [logWriterStep] at hcl
          omega
      · intro fid b hcon; cases hcon
      · intro fid b h
        simp [logWriterStep] at h ⊢
        omega
      · intro hcl
        simp [logWriterStep] at hcl
        omega
  | some p =>
    obtain ⟨f0, b0⟩ := p
    have hlt : f0 < nid := hinv f0 b0 rfl
    by_cases hrot : b0 + ((line.length : Int) + 1) > T
    · refine ⟨rfl, ?_, ?_, ?_, ?_, ?_, ?_⟩
      · intro hcon; cases hcon
      · intro fid b hcon
        cases hcon
        exact ⟨rfl, rfl, Or.inl (by simp [logWriterStep, hrot])⟩
      · intro hcon; cases hcon
      · intro fid b hcon
        cases hcon
        constructor
        · intro _
          simp [logWriterStep, hrot]
        · intro _
          omega
      · intro fid b h
        simp [logWriterStep, hrot] at h
      · intro _ line2
        simp [logWriterStep, hrot]
        omega
    · refine ⟨rfl, ?_, ?_, ?_, ?_, ?_, ?_⟩
      · intro hcon; cases hcon
      · intro fid b hcon
        cases hcon
        refine ⟨rfl, rfl, Or.inr ?_⟩
        simp [logWriterStep, hrot]
        omega
      · intro hcon; cases hcon
      · intro fid b hcon
        cases hcon
        constructor
        · intro hgt
          exact absurd (by omega : b0 + ((line.length : Int) + 1) > T) hrot
        · intro hcl
          simp [logWriterStep, hrot] at hcl
      · intro fid b h
        simp only [logWriterStep, hrot] at h ⊢
        simp at h
        omega
      · intro hcl
        simp [logWriterStep, hrot] at hcl

theorem c7_sink_rotation_witness :
    (logWriterStep 5 ⟨none, 0⟩ (("abcdefgh").data)).2.2 = ("abcdefgh").data
    ∧ SinkInv (logWriterStep 5 ⟨none, 0⟩ (("abcdefgh").data)).1 :=
  ⟨(c7_sink_rotation 5 ⟨none, 0⟩ (("abcdefgh").data)
      (fun f b h => by cases h)).1,
   (c7_sink_rotation 5 ⟨none, 0⟩ (("abcdefgh").data)
      (fun f b h => by cases h)).2.2.2.2.2.1⟩

end InvokerAgent
